import Mathlib

/-!
Verification of the esp32-hue LED driver core against its design
specification.  The Rust sources are shallowly embedded: machine integers
become Nat (with explicit bounds where overflow matters), fallible
operations return Option, and the executor / timer run loops become
explicit transition systems over small state records.
-/

/-! ## Waveform item codec (src/driver/rmt.rs, RmtItem)

An RmtItem is a 32-bit value packing two (duration, level) half periods.
We model the u32 payload as a Nat; u16 arguments are Nats < 2^16.
Note that the source's duration decoders mask with
0b01111_1111_1111_1111, whose first underscore group has five binary
digits: the literal is seventeen digits, 0xFFFF, sixteen low bits — not
the 15-bit field the encoder uses.
-/

namespace RmtItem

-- Rust: (duration0 as u32) | ((level0 as u32) << 15), same for half period 1,
-- then half_period0 | (half_period1 << 16).
def new (duration0 : Nat) (level0 : Bool) (duration1 : Nat) (level1 : Bool) : Nat :=
  let half_period0 : Nat := duration0 ||| (level0.toNat <<< 15)
  let half_period1 : Nat := duration1 ||| (level1.toNat <<< 15)
  half_period0 ||| (half_period1 <<< 16)

-- Rust: (self.0 & 0b01111_1111_1111_1111) as u16.  The source's binary
-- literal has sixteen 1s (its first underscore group is 01111), so the
-- mask is 0xFFFF and keeps bit 15 — the level0 bit — inside the decoded
-- duration.  The cast to u16 is lossless (the masked value is < 2^16).
def duration0 (item : Nat) : Nat := item &&& 0b01111111111111111

-- Rust: (self.0 & 0b1000_0000_0000_0000) != 0
def level0 (item : Nat) : Bool := decide (item &&& 0b1000000000000000 ≠ 0)

-- Rust: ((self.0 >> 16) & 0b01111_1111_1111_1111) as u16: the same
-- sixteen-1s mask (0xFFFF), keeping bit 31 — the level1 bit — in the
-- decoded duration.
def duration1 (item : Nat) : Nat := (item >>> 16) &&& 0b01111111111111111

-- Rust: (self.0 & 0b1000_0000_0000_0000_0000_0000_0000_0000) != 0
def level1 (item : Nat) : Bool :=
  decide (item &&& 0b10000000000000000000000000000000 ≠ 0)

/-- Arithmetic normal form of the encoder for in-range durations. -/
theorem new_eq_arith (d0 d1 : Nat) (l0 l1 : Bool)
    (h0 : d0 < 32768) (h1 : d1 < 32768) :
    new d0 l0 d1 l1 =
      d0 + l0.toNat * 32768 + d1 * 65536 + l1.toNat * 2147483648 := by
  unfold new
  have hp0 : d0 ||| (l0.toNat <<< 15) = l0.toNat * 32768 + d0 := by
    rw [Nat.shiftLeft_eq, Nat.mul_comm l0.toNat (2 ^ 15), Nat.lor_comm,
      ← Nat.mul_add_lt_is_or h0 l0.toNat]
  have hp1 : d1 ||| (l1.toNat <<< 15) = l1.toNat * 32768 + d1 := by
    rw [Nat.shiftLeft_eq, Nat.mul_comm l1.toNat (2 ^ 15), Nat.lor_comm,
      ← Nat.mul_add_lt_is_or h1 l1.toNat]
  simp only [hp0, hp1]
  have hlt : l0.toNat * 32768 + d0 < 65536 := by
    cases l0 <;> simp [Bool.toNat] <;> omega
  rw [Nat.shiftLeft_eq, Nat.mul_comm _ (2 ^ 16), Nat.lor_comm,
    ← Nat.mul_add_lt_is_or hlt (l1.toNat * 32768 + d1)]
  cases l0 <;> cases l1 <;> simp [Bool.toNat] <;> ring_nf

/-- C8: the claimed codec round trip fails on the code.  new() packs each
duration in bits 0..14 of its half period with the level at bit 15, and
level0()/level1() read exactly that bit, but the duration decoders mask
sixteen bits (0xFFFF), keeping the level bit inside the decoded duration:
at the valid input (duration0 = 5, level0 = true, duration1 = 7,
level1 = false), duration0() returns 0x8005 instead of 5, and at
(5, false, 7, true), duration1() returns 0x8007 instead of 7; the levels
themselves decode correctly. -/
theorem roundtrip_fails_on_level_bit :
    duration0 (new 5 true 7 false) = 0x8005 ∧
    duration0 (new 5 true 7 false) ≠ 5 ∧
    level0 (new 5 true 7 false) = true ∧
    duration1 (new 5 false 7 true) = 0x8007 ∧
    duration1 (new 5 false 7 true) ≠ 7 ∧
    level1 (new 5 false 7 true) = true := by
  refine ⟨?_, ?_, ?_, ?_, ?_, ?_⟩ <;> decide

/-- C10 counterexample: with the source's 16-bit decoder mask, the item
encoded from duration0 = 0x8000 with level0 = false decodes its
duration0() to 0x8000, not to 0 as the claim states. -/
theorem out_of_range_decode_not_zero_cex :
    duration0 (new 0x8000 false 0 false) ≠ 0 := by decide

/-- C10 (amended): the codec performs no validation of its duration
arguments.  For duration0 = 0x8000 (a valid u16 exceeding the 15-bit
field) with level0 = false, the out-of-range bit lands on the level bit:
the encoded item decodes to level0() = true — the round-trip equation
fails outside the 15-bit precondition — while duration0() returns 0x8000
(the 16-bit decoder mask keeps it).  The 15-bit limit is enforced only by
the timing conversion, not at encode time. -/
theorem no_validation_out_of_range :
    duration0 (new 0x8000 false 0 false) = 0x8000 ∧
    level0 (new 0x8000 false 0 false) = true := by
  constructor <;> decide

end RmtItem

/-! ## Timing converter (src/driver/ws2811.rs, nanos_to_ticks)

Rust signature: fn nanos_to_ticks(ticks_hz: Hertz, duration: NanoSeconds)
-> Result<u16, EspError>.  Hertz and NanoSeconds wrap u32.  The checked
u128 arithmetic is modelled by Option-returning operations that fail
exactly when the u128 range (2^128) is exceeded; the Err(EOVERFLOW)
result is modelled as none.
-/

namespace Ws2811

def U128_SIZE : Nat := 2 ^ 128

def checked_mul_u128 (a b : Nat) : Option Nat :=
  if a * b < U128_SIZE then some (a * b) else none

def checked_add_u128 (a b : Nat) : Option Nat :=
  if a + b < U128_SIZE then some (a + b) else none

def checked_div_u128 (a b : Nat) : Option Nat :=
  if b = 0 then none else some (a / b)

/-- Bitwise NOT of BITS15_MASK = 0x7fff in u128 (Rust: !(0x7fff as u128)). -/
def NOT_BITS15_MASK : Nat := U128_SIZE - 0x8000

def nanos_to_ticks (ticks_hz duration : Nat) : Option Nat :=
  (checked_mul_u128 ticks_hz duration).bind fun v =>
  (checked_add_u128 v 500000000).bind fun v =>
  (checked_div_u128 v 1000000000).bind fun v =>
  if v &&& NOT_BITS15_MASK = 0 then some v else none

/-- The 15-bit fit test of the source: masking with the complement of
0x7fff is zero exactly for values below 2^15. -/
theorem and_not_mask_eq_zero_iff (v : Nat) (hv : v < U128_SIZE) :
    v &&& NOT_BITS15_MASK = 0 ↔ v < 32768 := by
  have hM : NOT_BITS15_MASK = (2 ^ 113 - 1) <<< 15 := by
    rw [Nat.shiftLeft_eq]; unfold NOT_BITS15_MASK U128_SIZE; norm_num
  have hv128 : v < 2 ^ 128 := hv
  constructor
  · intro h
    by_contra hge
    push_neg at hge
    have hge' : v ≥ 2 ^ 15 := by omega
    obtain ⟨i, hi15, hbit⟩ :=
      Nat.ge_two_pow_implies_high_bit_true (x := v) (n := 15) hge'
    have hi128 : i < 128 := by
      by_contra hbig
      push_neg at hbig
      have hvi : v < 2 ^ i :=
        lt_of_lt_of_le hv128 (Nat.pow_le_pow_right (by norm_num) hbig)
      rw [Nat.testBit_lt_two_pow hvi] at hbit
      exact Bool.false_ne_true hbit
    have hand : (v &&& NOT_BITS15_MASK).testBit i = true := by
      rw [Nat.testBit_and, hM, Nat.testBit_shiftLeft,
        Nat.testBit_two_pow_sub_one]
      simp only [hbit, Bool.true_and]
      rw [decide_eq_true (by omega : i ≥ 15),
        decide_eq_true (by omega : i - 15 < 113)]
      rfl
    rw [h, Nat.zero_testBit] at hand
    exact Bool.false_ne_true hand
  · intro h
    apply Nat.eq_of_testBit_eq
    intro i
    rw [Nat.testBit_and, Nat.zero_testBit, hM, Nat.testBit_shiftLeft,
      Nat.testBit_two_pow_sub_one]
    rcases Nat.lt_or_ge i 15 with hlt | hge
    · rw [decide_eq_false (by omega : ¬ i ≥ 15)]
      simp
    · have hv15 : v < 2 ^ 15 := by omega
      have hvi : v < 2 ^ i :=
        lt_of_lt_of_le hv15 (Nat.pow_le_pow_right (by norm_num) hge)
      rw [Nat.testBit_lt_two_pow hvi]
      simp

/-- C6: for every clock frequency and duration (u32 inputs),
nanos_to_ticks returns (duration * clock_hz + 5·10^8) / 10^9 — round to
nearest with ties away from zero — whenever that value fits in 15 bits,
and fails (Overflow, modelled as none) exactly when it does not; in
particular clock_hz = 10^9 with duration = 1 s (= 10^9 ns) overflows. -/
theorem nanos_to_ticks_spec (hz d : Nat) (hhz : hz < 2 ^ 32) (hd : d < 2 ^ 32) :
    (nanos_to_ticks hz d =
      if (hz * d + 500000000) / 1000000000 ≤ 0x7FFF
      then some ((hz * d + 500000000) / 1000000000)
      else none) ∧
    nanos_to_ticks 1000000000 1000000000 = none := by
  constructor
  · have hmul : hz * d < U128_SIZE := by
      have h1 : hz * d < 2 ^ 32 * 2 ^ 32 := by
        calc hz * d ≤ hz * 2 ^ 32 := Nat.mul_le_mul_left hz (by omega)
          _ < 2 ^ 32 * 2 ^ 32 := by
              apply Nat.mul_lt_mul_of_lt_of_le hhz (le_refl _)
              norm_num
      unfold U128_SIZE
      calc hz * d < 2 ^ 32 * 2 ^ 32 := h1
        _ ≤ 2 ^ 128 := by norm_num
    have hadd : hz * d + 500000000 < U128_SIZE := by
      have h1 : hz * d < 2 ^ 64 := by
        have : (2:Nat) ^ 32 * 2 ^ 32 = 2 ^ 64 := by norm_num
        calc hz * d ≤ hz * 2 ^ 32 := Nat.mul_le_mul_left hz (by omega)
          _ < 2 ^ 32 * 2 ^ 32 := by
              apply Nat.mul_lt_mul_of_lt_of_le hhz (le_refl _)
              norm_num
          _ = 2 ^ 64 := this
      unfold U128_SIZE
      calc hz * d + 500000000 < 2 ^ 64 + 500000000 := by omega
        _ ≤ 2 ^ 128 := by norm_num
    have e1 : checked_mul_u128 hz d = some (hz * d) := by
      simp only [checked_mul_u128, if_pos hmul]
    have e2 : checked_add_u128 (hz * d) 500000000 = some (hz * d + 500000000) := by
      simp only [checked_add_u128, if_pos hadd]
    have e3 : checked_div_u128 (hz * d + 500000000) 1000000000 =
        some ((hz * d + 500000000) / 1000000000) := by
      simp only [checked_div_u128]
      rw [if_neg (by norm_num : ¬ (1000000000 : Nat) = 0)]
    unfold nanos_to_ticks
    rw [e1, Option.some_bind, e2, Option.some_bind, e3, Option.some_bind]
    set v := (hz * d + 500000000) / 1000000000 with hvdef
    have hvlt : v < U128_SIZE :=
      lt_of_le_of_lt (Nat.div_le_self _ _) hadd
    rcases Nat.lt_or_ge 32767 v with hbig | hsmall
    · have hmask : ¬ (v &&& NOT_BITS15_MASK = 0) := by
        rw [and_not_mask_eq_zero_iff v hvlt]; omega
      rw [if_neg hmask, if_neg (by omega : ¬ v ≤ 0x7FFF)]
    · have hmask : v &&& NOT_BITS15_MASK = 0 := by
        rw [and_not_mask_eq_zero_iff v hvlt]; omega
      rw [if_pos hmask, if_pos (by omega : v ≤ 0x7FFF)]
  · decide

/-- C6 witness: a 20 MHz-scale clock with a 350 ns duration converts, and
the 1 GHz / 1 s pair overflows. -/
theorem nanos_to_ticks_spec_witness :
    (nanos_to_ticks 80000000 350 =
      if (80000000 * 350 + 500000000) / 1000000000 ≤ 0x7FFF
      then some ((80000000 * 350 + 500000000) / 1000000000)
      else none) ∧
    nanos_to_ticks 1000000000 1000000000 = none :=
  nanos_to_ticks_spec 80000000 350 (by decide) (by decide)

end Ws2811

/-! ## LED protocol expansion (src/driver/ws2811.rs, Ws2811::show)

show takes an iterator of ColorGroup, expands each group into num_leds
repetitions of its 24-bit color, and each color value into 24 waveform
items chosen between the precomputed zero/one items: the Rust closure
starts with mask = 1 << 24 and, for each of 24 steps, first shifts the
mask right by one, then emits zero_item if (val & mask) == 0 and one_item
otherwise.  Iterators are modelled as lists; the zero/one items are
abstract parameters (their u32 payloads).
-/

namespace Ws2811

structure ColorGroup where
  num_leds : Nat
  color : Nat

-- The 24-step mask loop: one recursive step per emitted item, carrying the
-- mutable mask exactly as the Rust closure does.
def bitItems (zero_item one_item val : Nat) : Nat → Nat → List Nat
  | _, 0 => []
  | mask, n + 1 =>
    let m := mask >>> 1
    (if val &&& m = 0 then zero_item else one_item) :: bitItems zero_item one_item val m n

def colorItems (zero_item one_item val : Nat) : List Nat :=
  bitItems zero_item one_item val (1 <<< 24) 24

-- Ws2811::show as the flat item sequence it feeds to the rmt transfer:
-- flat_map over groups (repeat color num_leds times), then flat_map each
-- color value into its 24 items.
def showItems (zero_item one_item : Nat) (groups : List ColorGroup) : List Nat :=
  (groups.flatMap fun g => List.replicate g.num_leds g.color).flatMap
    fun val => colorItems zero_item one_item val

/-- C7: show expands each group into run-length repetitions of its color
and each color into exactly 24 items, most significant bit first: a single
group of run length 3 and color 0x000001 yields exactly 72 items, the zero
item everywhere except the last item of each 24-item block, which is the
one item; an empty sequence yields no items, and a zero run length
contributes no pixels. -/
theorem show_expansion (zero_item one_item c : Nat) :
    showItems zero_item one_item [⟨3, 0x000001⟩] =
      List.flatten
        (List.replicate 3 (List.replicate 23 zero_item ++ [one_item])) ∧
    (showItems zero_item one_item [⟨3, 0x000001⟩]).length = 72 ∧
    showItems zero_item one_item [] = [] ∧
    showItems zero_item one_item [⟨0, c⟩] = [] ∧
    (colorItems zero_item one_item c).length = 24 := by
  refine ⟨rfl, ?_, rfl, rfl, ?_⟩
  · rfl
  · rfl

end Ws2811

/-! ## Hardware transfer translation callback (src/driver/rmt.rs)

Rmt::write boxes the item iterator, leaks it as the src pointer of
rmt_write_sample (src_size = 1), and registers tx_translate_iterator as
the translation callback.  Each callback invocation copies up to
wanted_num items from the iterator into dest; when the iterator runs out
before filling wanted_num it drops the boxed iterator and reports
translated_size = src_size (exhaustion), otherwise translated_size = 0.
The driver keeps invoking the callback until the translated sizes
accumulate to src_size, so no invocation follows the one that signalled
exhaustion.  The iterator is modelled as the list of its remaining items.
-/

namespace Rmt

structure TxOut where
  rest : List Nat
  written : List Nat
  translated : Nat
  dropped : Bool

-- The copy loop of tx_translate_iterator (the Rust loop counts i upward;
-- here the remaining wanted count is counted down, emitting items in the
-- same order).  dropped records the drop(Box::from_raw(iter)) call.
def tx_translate_iterator (src_size : Nat) : List Nat → Nat → TxOut
  | iter, 0 => ⟨iter, [], 0, false⟩
  | [], _ + 1 => ⟨[], [], src_size, true⟩
  | x :: rest, w + 1 =>
    let r := tx_translate_iterator src_size rest w
    ⟨r.rest, x :: r.written, r.translated, r.dropped⟩

-- A whole transfer: the driver invokes the callback once per element of
-- wanteds (the chunk sizes it requests) and stops after the callback
-- signals exhaustion.  Returns (number of times the boxed iterator was
-- dropped, whether exhaustion was reached).  A wanteds list too short to
-- exhaust the iterator models a transfer aborted early.
def transfer (src_size : Nat) : List Nat → List Nat → Nat × Bool
  | _, [] => (0, false)
  | iter, w :: ws =>
    let r := tx_translate_iterator src_size iter w
    if r.dropped then (1, true) else transfer src_size r.rest ws

/-- Each callback invocation writes the next min(wanted, remaining) items. -/
theorem tx_translate_eval (src_size : Nat) (iter : List Nat) (w : Nat) :
    (tx_translate_iterator src_size iter w).written = iter.take w ∧
    (tx_translate_iterator src_size iter w).rest = iter.drop w ∧
    ((tx_translate_iterator src_size iter w).dropped = true ↔ iter.length < w) ∧
    (tx_translate_iterator src_size iter w).translated =
      (if (tx_translate_iterator src_size iter w).dropped then src_size else 0) := by
  induction iter generalizing w with
  | nil =>
    cases w with
    | zero => simp [tx_translate_iterator]
    | succ w => simp [tx_translate_iterator]
  | cons x rest ih =>
    cases w with
    | zero => simp [tx_translate_iterator]
    | succ w =>
      obtain ⟨h1, h2, h3, h4⟩ := ih w
      refine ⟨?_, ?_, ?_, ?_⟩
      · simp only [tx_translate_iterator, List.take_succ_cons]
        rw [h1]
      · simp only [tx_translate_iterator, List.drop_succ_cons]
        exact h2
      · simp only [tx_translate_iterator, List.length_cons]
        rw [h3]
        omega
      · simp only [tx_translate_iterator]
        rw [h4]

/-- If the driver stops before exhaustion, the boxed iterator is never
dropped. -/
theorem transfer_abort_no_drop (src_size : Nat) (iter ws : List Nat)
    (h : (transfer src_size iter ws).2 = false) :
    (transfer src_size iter ws).1 = 0 := by
  induction ws generalizing iter with
  | nil => simp [transfer]
  | cons w ws ih =>
    by_cases hd : (tx_translate_iterator src_size iter w).dropped
    · simp only [transfer, if_pos hd] at h
      exact absurd h (by decide)
    · simp only [transfer, if_neg hd] at h ⊢
      exact ih _ h

/-- A transfer that reaches exhaustion drops the boxed iterator exactly
once, and enough nonempty chunk requests always reach exhaustion. -/
theorem transfer_drop_once (src_size : Nat) (iter ws : List Nat)
    (h : (transfer src_size iter ws).2 = true) :
    (transfer src_size iter ws).1 = 1 := by
  induction ws generalizing iter with
  | nil => simp [transfer] at h
  | cons w ws ih =>
    by_cases hd : (tx_translate_iterator src_size iter w).dropped
    · simp [transfer, if_pos hd]
    · simp only [transfer, if_neg hd] at h ⊢
      exact ih _ h

/-- Enough nonempty chunk requests drive any iterator to exhaustion. -/
theorem transfer_reaches_exhaustion (src_size : Nat) (iter ws : List Nat)
    (hw : ∀ u ∈ ws, 0 < u) (hlen : iter.length < ws.length) :
    (transfer src_size iter ws).2 = true := by
  induction ws generalizing iter with
  | nil => simp at hlen
  | cons w ws ih =>
    by_cases hd : (tx_translate_iterator src_size iter w).dropped
    · simp [transfer, if_pos hd]
    · simp only [transfer, if_neg hd]
      obtain ⟨-, h2, h3, -⟩ := tx_translate_eval src_size iter w
      have hwpos : 0 < w := hw w (by simp)
      have hnotlt : ¬ iter.length < w := fun hcon => hd (h3.mpr hcon)
      apply ih
      · intro u hu; exact hw u (by simp [hu])
      · rw [h2, List.length_drop]
        simp only [List.length_cons] at hlen
        omega

/-- C5 (amended): each translation-callback invocation writes at most
wanted_num items (the next min(wanted, remaining) items of the iterator,
with item_num = the number written), signals exhaustion
(translated_size = src_size) exactly when the iterator yields fewer items
than requested, and the boxed iterator is dropped exactly once, at
exhaustion, provided the driver runs the transfer to exhaustion; a
transfer aborted before exhaustion never drops the iterator. -/
theorem translate_iterator_spec (src_size w : Nat) (iter ws : List Nat)
    (hw : ∀ u ∈ ws, 0 < u) (hlen : iter.length < ws.length) :
    ((tx_translate_iterator src_size iter w).written.length ≤ w ∧
     (tx_translate_iterator src_size iter w).written = iter.take w ∧
     ((tx_translate_iterator src_size iter w).dropped = true ↔ iter.length < w) ∧
     (tx_translate_iterator src_size iter w).translated =
       (if (tx_translate_iterator src_size iter w).dropped then src_size else 0)) ∧
    (transfer src_size iter ws).2 = true ∧
    (transfer src_size iter ws).1 = 1 ∧
    (∀ ws2, (transfer src_size iter ws2).2 = false →
      (transfer src_size iter ws2).1 = 0) := by
  obtain ⟨h1, h2, h3, h4⟩ := tx_translate_eval src_size iter w
  have hex := transfer_reaches_exhaustion src_size iter ws hw hlen
  refine ⟨⟨?_, h1, h3, h4⟩, hex, transfer_drop_once src_size iter ws hex,
    fun ws2 h => transfer_abort_no_drop src_size iter ws2 h⟩
  rw [h1, List.length_take]
  omega

/-- C5 witness: a 5-item iterator with chunk size 4, driven by six
requests, reaches exhaustion and is dropped exactly once. -/
theorem translate_iterator_spec_witness :
    ((tx_translate_iterator 1 [10, 11, 12, 13, 14] 4).written.length ≤ 4 ∧
     (tx_translate_iterator 1 [10, 11, 12, 13, 14] 4).written =
       [10, 11, 12, 13, 14].take 4 ∧
     ((tx_translate_iterator 1 [10, 11, 12, 13, 14] 4).dropped = true ↔
       [10, 11, 12, 13, 14].length < 4) ∧
     (tx_translate_iterator 1 [10, 11, 12, 13, 14] 4).translated =
       (if (tx_translate_iterator 1 [10, 11, 12, 13, 14] 4).dropped
        then 1 else 0)) ∧
    (transfer 1 [10, 11, 12, 13, 14] [4, 4, 4, 4, 4, 4]).2 = true ∧
    (transfer 1 [10, 11, 12, 13, 14] [4, 4, 4, 4, 4, 4]).1 = 1 ∧
    (∀ ws2, (transfer 1 [10, 11, 12, 13, 14] ws2).2 = false →
      (transfer 1 [10, 11, 12, 13, 14] ws2).1 = 0) :=
  translate_iterator_spec 1 4 [10, 11, 12, 13, 14] [4, 4, 4, 4, 4, 4]
    (by decide) (by decide)

/-- C5 counterexample: a transfer aborted after a single callback
invocation (chunk of 4 from a 5-item iterator) never reaches exhaustion
and never drops the boxed iterator, refuting the claim that the iterator
is released exactly once even if the transfer is aborted early. -/
theorem iterator_not_dropped_on_abort_cex :
    (transfer 1 [10, 11, 12, 13, 14] [4]).1 = 0 ∧
    (transfer 1 [10, 11, 12, 13, 14] [4]).2 = false := by
  constructor <;> decide

end Rmt

/-! ## Cooperative executor (src/utils/executor.rs)

Executor::run creates a heapless spsc::Queue<TaskId, N> (whose capacity is
N - 1 elements, per the heapless crate: one slot of the N-element ring
buffer is always kept free), enqueues every task id 0..tasks.len()-1 at
entry (panicking with "task queue full" on overflow), creates one
TaskHandle per task with is_queued initialised to false, and then loops:
dequeue an id, clear its is_queued flag, poll the task, decrement the
pending count when the poll is ready; it exits when pending reaches zero
and then sets the registered enqueue callback back to None.  A waker
(TaskHandleData::enqueue_task) does a compare-exchange of is_queued from
false to true; only the winner takes the executor lock and enqueues the
id (a no-op that logs when the callback has been deregistered).

The run loop and its environment are modelled as a transition system.
Wakers for a task id exist only after the executor first polls that task
(Executor::run builds the waker passed to poll, and external contexts can
only obtain clones of it from inside poll), so a wake event requires a
positive poll count for its id.  Task bodies are an oracle
beh : id -> poll number -> Bool (true = Poll::Ready).
-/

namespace Executor

structure Config where
  queue : List Nat
  flags : Nat → Bool
  completed : Nat → Bool
  pollCount : Nat → Nat
  pending : Nat
  registered : Bool

inductive Ev where
  | poll
  | wake (id : Nat)
  | teardown

-- One transition of the run loop or of a concurrent waker context.
-- n = number of tasks, cap = ready-queue capacity (N - 1 for the
-- heapless spsc queue of Executor::run::<N>), beh = task poll oracle.
-- none = the event is not enabled or hits the fatal
-- expect("task queue full") panic.
def step (n cap : Nat) (beh : Nat → Nat → Bool) (c : Config) : Ev → Option Config
  | .poll =>
    match c.queue with
    | [] => none
    | id :: rest =>
      if c.registered then
        let ready := beh id (c.pollCount id)
        some { queue := rest
               flags := fun j => if j = id then false else c.flags j
               completed := fun j => if j = id then (c.completed j || ready) else c.completed j
               pollCount := fun j => if j = id then c.pollCount j + 1 else c.pollCount j
               pending := if ready then c.pending - 1 else c.pending
               registered := true }
      else none
  | .wake id =>
    if id < n ∧ 0 < c.pollCount id then
      if c.flags id then some c
      else
        let c' := { c with flags := fun j => if j = id then true else c.flags j }
        if c.registered then
          if c.queue.length < cap then some { c' with queue := c'.queue ++ [id] }
          else none
        else some c'
    else none
  | .teardown =>
    if c.registered ∧ c.pending = 0 then some { c with registered := false }
    else none

def runTrace (n cap : Nat) (beh : Nat → Nat → Bool) : Config → List Ev → Option Config
  | c, [] => some c
  | c, e :: es => (step n cap beh c e).bind fun c' => runTrace n cap beh c' es

-- State at entry of the dequeue loop: every id queued once in order,
-- all is_queued flags false, nothing polled or completed, pending = n.
def initConfig (n : Nat) : Config :=
  { queue := List.range n
    flags := fun _ => false
    completed := fun _ => false
    pollCount := fun _ => 0
    pending := n
    registered := true }

-- The initial bulk enqueue of Executor::run: ids are offered to the spsc
-- queue in order; each enqueue fails (expect "task queue full" panics,
-- modelled as none) when the queue already holds cap elements.
def initQueue (cap : Nat) (q : List Nat) : List Nat → Option (List Nat)
  | [] => some q
  | id :: ids => if q.length < cap then initQueue cap (q ++ [id]) ids else none

-- Executor::run::<N> over n tasks, up to the point where the run loop
-- starts: a heapless spsc::Queue<TaskId, N> holds at most N - 1 elements.
def initRun (N n : Nat) : Option Config :=
  (initQueue (N - 1) [] (List.range n)).map fun q => { initConfig n with queue := q }

theorem initQueue_ok (cap : Nat) (ids q : List Nat)
    (h : q.length + ids.length ≤ cap) :
    initQueue cap q ids = some (q ++ ids) := by
  induction ids generalizing q with
  | nil => simp [initQueue]
  | cons id ids ih =>
    simp only [initQueue]
    rw [if_pos (by simp at h; omega)]
    rw [ih (q ++ [id]) (by simp at h ⊢; omega)]
    simp

theorem initQueue_overflow (cap : Nat) (ids q : List Nat)
    (h : cap < q.length + ids.length) (hne : ids ≠ []) :
    initQueue cap q ids = none := by
  induction ids generalizing q with
  | nil => exact absurd rfl hne
  | cons id ids ih =>
    simp only [initQueue]
    by_cases hlt : q.length < cap
    · rw [if_pos hlt]
      cases ids with
      | nil => simp at h; omega
      | cons id2 ids2 =>
        apply ih
        · simp at h ⊢; omega
        · simp
    · rw [if_neg hlt]

/-- C3 counterexample: for N = 2 and a task array of length 2, the ready
queue (a heapless spsc queue holding at most N - 1 = 1 element) overflows
during the initial bulk enqueue: the expect("task queue full") panic is
reached, refuting capacity = N. -/
theorem init_enqueue_overflow_cex : initRun 2 2 = none := by rfl

/-- C3 (amended): the ready queue of Executor::run::<N> holds at most
N - 1 elements; the initial bulk enqueue succeeds exactly for task arrays
of length at most N - 1, placing the ids 0..n-1 in FIFO order, and it
leaves every per-task is_queued flag false (the initial entries are not
marked Queued); an array of length N panics with "task queue full". -/
theorem init_enqueue_capacity (N n : Nat) (h : n ≤ N - 1) :
    initRun N n = some (initConfig n) ∧
    (∀ id, (initConfig n).flags id = false) ∧
    (1 ≤ N → initRun N N = none) := by
  refine ⟨?_, fun id => rfl, fun hN => ?_⟩
  · unfold initRun
    rw [initQueue_ok (N - 1) (List.range n) []
      (by simp only [List.length_nil, List.length_range]; omega)]
    simp only [Option.map_some, List.nil_append]
    rfl
  · unfold initRun
    rw [initQueue_overflow (N - 1) (List.range N) []
      (by simp only [List.length_nil, List.length_range]; omega)
      (by simp only [ne_eq, List.range_eq_nil]; omega)]
    rfl

/-- C3 witness: for N = 2 one task is enqueued successfully with its flag
unmarked, and two tasks overflow. -/
theorem init_enqueue_capacity_witness :
    initRun 2 1 = some (initConfig 1) ∧ initRun 2 2 = none :=
  ⟨(init_enqueue_capacity 2 1 (by decide)).1,
   (init_enqueue_capacity 2 1 (by decide)).2.2 (by decide)⟩

/-! Shape lemmas for the three kinds of transition. -/

theorem step_poll_eq (n cap : Nat) (beh : Nat → Nat → Bool) (c c' : Config)
    (h : step n cap beh c .poll = some c') :
    ∃ id rest, c.queue = id :: rest ∧ c.registered = true ∧
      c' = { queue := rest
             flags := fun j => if j = id then false else c.flags j
             completed := fun j =>
               if j = id then (c.completed j || beh id (c.pollCount id))
               else c.completed j
             pollCount := fun j =>
               if j = id then c.pollCount j + 1 else c.pollCount j
             pending := if beh id (c.pollCount id) then c.pending - 1 else c.pending
             registered := true } := by
  cases hq : c.queue with
  | nil => simp [step, hq] at h
  | cons id rest =>
    by_cases hr : c.registered
    · refine ⟨id, rest, rfl, hr, ?_⟩
      simp only [step, hq, hr, if_pos] at h
      exact (Option.some.inj h).symm
    · simp [step, hq, hr] at h

theorem step_wake_eq (n cap : Nat) (beh : Nat → Nat → Bool) (c c' : Config)
    (id : Nat) (h : step n cap beh c (.wake id) = some c') :
    id < n ∧ 0 < c.pollCount id ∧
    ((c.flags id = true ∧ c' = c) ∨
     (c.flags id = false ∧ c.registered = true ∧ c.queue.length < cap ∧
       c' = { c with flags := fun j => if j = id then true else c.flags j
                     queue := c.queue ++ [id] }) ∨
     (c.flags id = false ∧ c.registered = false ∧
       c' = { c with flags := fun j => if j = id then true else c.flags j })) := by
  by_cases hen : id < n ∧ 0 < c.pollCount id
  · refine ⟨hen.1, hen.2, ?_⟩
    by_cases hf : c.flags id
    · simp only [step, if_pos hen, if_pos hf] at h
      exact Or.inl ⟨hf, (Option.some.inj h).symm⟩
    · by_cases hr : c.registered
      · by_cases hlen : c.queue.length < cap
        · simp only [step, if_pos hen, if_neg hf, if_pos hr, if_pos hlen] at h
          refine Or.inr (Or.inl ⟨by simpa using hf, hr, hlen, ?_⟩)
          exact (Option.some.inj h).symm
        · simp [step, if_pos hen, if_neg hf, hr, hlen] at h
      · simp only [step, if_pos hen, if_neg hf, if_neg hr] at h
        exact Or.inr (Or.inr ⟨by simpa using hf, by simpa using hr,
          (Option.some.inj h).symm⟩)
  · simp [step, if_neg hen] at h

theorem step_teardown_eq (n cap : Nat) (beh : Nat → Nat → Bool) (c c' : Config)
    (h : step n cap beh c .teardown = some c') :
    c.registered = true ∧ c.pending = 0 ∧ c' = { c with registered := false } := by
  by_cases hen : c.registered = true ∧ c.pending = 0
  · simp only [step, if_pos hen] at h
    exact ⟨hen.1, hen.2, (Option.some.inj h).symm⟩
  · simp [step, if_neg hen] at h

/-! The queue-shape invariant behind the CAS waking protocol: the ready
queue never holds duplicate ids, and an id sitting in the queue either
has its is_queued flag set (it was enqueued by a waker) or has never been
polled (it is one of the initial entries, for which no waker can exist
yet). -/

def InvQ (c : Config) : Prop :=
  c.queue.Nodup ∧
  (∀ id, id ∈ c.queue → c.flags id = true ∨ c.pollCount id = 0)

theorem invQ_init (n : Nat) : InvQ (initConfig n) :=
  ⟨List.nodup_range n, fun _ _ => Or.inr rfl⟩

theorem invQ_step (n cap : Nat) (beh : Nat → Nat → Bool) (c c' : Config) (e : Ev)
    (hI : InvQ c) (hs : step n cap beh c e = some c') : InvQ c' := by
  obtain ⟨hnd, hflag⟩ := hI
  cases e with
  | poll =>
    obtain ⟨id, rest, hq, -, hc'⟩ := step_poll_eq n cap beh c c' hs
    subst hc'
    rw [hq] at hnd hflag
    refine ⟨(List.nodup_cons.mp hnd).2, ?_⟩
    intro j hj
    have hjne : j ≠ id := by
      intro hcon
      subst hcon
      exact (List.nodup_cons.mp hnd).1 hj
    simp only [if_neg hjne]
    exact hflag j (List.mem_cons_of_mem id hj)
  | wake id =>
    obtain ⟨-, hpc, hcase⟩ := step_wake_eq n cap beh c c' id hs
    have hnotin : c.flags id = false → id ∉ c.queue := by
      intro hf hin
      rcases hflag id hin with h1 | h2
      · rw [hf] at h1; exact Bool.false_ne_true h1
      · omega
    rcases hcase with ⟨-, hc'⟩ | ⟨hf, -, -, hc'⟩ | ⟨hf, -, hc'⟩
    · subst hc'; exact ⟨hnd, hflag⟩
    · subst hc'
      refine ⟨?_, ?_⟩
      · simp only [List.nodup_append, List.nodup_cons, List.not_mem_nil,
          not_false_iff, List.nodup_nil, and_true, true_and]
        simp only [List.disjoint_singleton]
        exact ⟨hnd, hnotin hf⟩
      · intro j hj
        rcases List.mem_append.mp hj with hjq | hjid
        · have hjne : j ≠ id := by
            intro hcon; subst hcon; exact hnotin hf hjq
          simp only [if_neg hjne]
          exact hflag j hjq
        · have hjeq : j = id := by simpa using hjid
          subst hjeq
          simp only [if_pos rfl]
          exact Or.inl rfl
    · subst hc'
      refine ⟨hnd, ?_⟩
      intro j hj
      by_cases hje : j = id
      · subst hje
        simp only [if_pos rfl]
        exact Or.inl rfl
      · simp only [if_neg hje]
        exact hflag j hj
  | teardown =>
    obtain ⟨-, -, hc'⟩ := step_teardown_eq n cap beh c c' hs
    subst hc'
    exact ⟨hnd, hflag⟩

theorem invQ_runTrace (n cap : Nat) (beh : Nat → Nat → Bool) (tr : List Ev)
    (c c' : Config) (hI : InvQ c) (h : runTrace n cap beh c tr = some c') :
    InvQ c' := by
  induction tr generalizing c with
  | nil =>
    simp only [runTrace] at h
    exact (Option.some.inj h) ▸ hI
  | cons e es ih =>
    simp only [runTrace] at h
    cases hstep : step n cap beh c e with
    | none => rw [hstep] at h; simp at h
    | some c1 =>
      rw [hstep] at h
      simp only [Option.some_bind] at h
      exact ih c1 (invQ_step n cap beh c c1 e hI hstep) h

-- A concrete task oracle for witnesses and counterexamples: task 0
-- reports Ready on every poll, every other task stays Pending.
def beh0 : Nat → Nat → Bool := fun id _ => decide (id = 0)

/-- C4: in every reachable state of a run, the ready queue holds at most
one pending entry per task id; when two wakes race, only the invocation
that finds is_queued = false enqueues the id (and, if the executor is
live, appends it to the queue exactly once) while a wake that finds
is_queued = true is a complete no-op; and a true-to-false transition of
the flag happens only when the executor dequeues that id for polling. -/
theorem cas_wake_protocol (n cap : Nat) (beh : Nat → Nat → Bool) (tr : List Ev)
    (c : Config) (id : Nat)
    (hreach : runTrace n cap beh (initConfig n) tr = some c) :
    c.queue.count id ≤ 1 ∧
    (c.flags id = true → ∀ c1, step n cap beh c (.wake id) = some c1 → c1 = c) ∧
    (c.flags id = false → c.registered = true →
      ∀ c1, step n cap beh c (.wake id) = some c1 →
        c1.flags id = true ∧ c1.queue = c.queue ++ [id]) ∧
    (∀ e c1, step n cap beh c e = some c1 → c.flags id = true →
      c1.flags id = false → e = .poll ∧ c.queue.head? = some id) := by
  have hI : InvQ c := invQ_runTrace n cap beh tr (initConfig n) c (invQ_init n) hreach
  refine ⟨?_, ?_, ?_, ?_⟩
  · exact List.nodup_iff_count_le_one.mp hI.1 id
  · intro hf c1 hs
    rcases step_wake_eq n cap beh c c1 id hs with ⟨-, -, hcase⟩
    rcases hcase with ⟨-, hc1⟩ | ⟨hf', -, -, -⟩ | ⟨hf', -, -⟩
    · exact hc1
    · rw [hf] at hf'; exact absurd hf' (by decide)
    · rw [hf] at hf'; exact absurd hf' (by decide)
  · intro hf hr c1 hs
    rcases step_wake_eq n cap beh c c1 id hs with ⟨-, -, hcase⟩
    rcases hcase with ⟨hf', -⟩ | ⟨-, -, -, hc1⟩ | ⟨-, hr', -⟩
    · rw [hf] at hf'; exact absurd hf' (by decide)
    · subst hc1
      exact ⟨by simp, rfl⟩
    · rw [hr] at hr'; exact absurd hr' (by decide)
  · intro e c1 hs hf hf1
    cases e with
    | poll =>
      obtain ⟨j, rest, hq, -, hc1⟩ := step_poll_eq n cap beh c c1 hs
      subst hc1
      simp only at hf1
      by_cases hje : id = j
      · subst hje
        exact ⟨rfl, by rw [hq]; rfl⟩
      · rw [if_neg hje] at hf1
        rw [hf] at hf1
        exact absurd hf1 (by decide)
    | wake j =>
      rcases step_wake_eq n cap beh c c1 j hs with ⟨-, -, hcase⟩
      rcases hcase with ⟨-, hc1⟩ | ⟨-, -, -, hc1⟩ | ⟨-, -, hc1⟩ <;> subst hc1
      · rw [hf] at hf1; exact absurd hf1 (by decide)
      all_goals
        simp only at hf1
        by_cases hje : id = j
        · subst hje; rw [if_pos rfl] at hf1; exact absurd hf1 (by decide)
        · rw [if_neg hje, hf] at hf1; exact absurd hf1 (by decide)
    | teardown =>
      obtain ⟨-, -, hc1⟩ := step_teardown_eq n cap beh c c1 hs
      subst hc1
      simp only at hf1
      rw [hf] at hf1
      exact absurd hf1 (by decide)

/-- C4 witness: the protocol facts at the initial state of a one-task
run (the empty trace). -/
theorem cas_wake_protocol_witness :
    (initConfig 1).queue.count 0 ≤ 1 ∧
    ((initConfig 1).flags 0 = true →
      ∀ c1, step 1 1 beh0 (initConfig 1) (.wake 0) = some c1 → c1 = initConfig 1) ∧
    ((initConfig 1).flags 0 = false → (initConfig 1).registered = true →
      ∀ c1, step 1 1 beh0 (initConfig 1) (.wake 0) = some c1 →
        c1.flags 0 = true ∧ c1.queue = (initConfig 1).queue ++ [0]) ∧
    (∀ e c1, step 1 1 beh0 (initConfig 1) e = some c1 →
      (initConfig 1).flags 0 = true → c1.flags 0 = false →
      e = .poll ∧ (initConfig 1).queue.head? = some 0) :=
  cas_wake_protocol 1 1 beh0 [] (initConfig 1) 0 rfl

/-! Executor::run keeps no per-task completed bit: after a poll returns
Ready it only decrements pending_futures.  A waker invocation for an
already-completed task therefore re-enqueues its id (the CAS succeeds
because is_queued was cleared at dequeue) and the run loop polls the
completed future again.  traceViolates detects such a poll along a trace;
noWakeOfCompleted checks that no waker of a completed task ever fires. -/

def traceViolates (n cap : Nat) (beh : Nat → Nat → Bool) : Config → List Ev → Bool
  | _, [] => false
  | c, e :: es =>
    (match e, c.queue with
     | .poll, id :: _ => c.completed id
     | _, _ => false) ||
    (match step n cap beh c e with
     | some c' => traceViolates n cap beh c' es
     | none => false)

def noWakeOfCompleted (n cap : Nat) (beh : Nat → Nat → Bool) : Config → List Ev → Bool
  | _, [] => true
  | c, e :: es =>
    (match e with
     | .wake id => !(c.completed id)
     | _ => true) &&
    (match step n cap beh c e with
     | some c' => noWakeOfCompleted n cap beh c' es
     | none => true)

/-- C1 counterexample: with two tasks (task 0 Ready on first poll, task 1
never ready), the valid trace poll, wake 0, poll, poll re-polls task 0
after it reported completion: a waker invoked after completion re-enqueues
the id and the run loop polls the completed task again, refuting the claim
for every run. -/
theorem completed_task_repolled_cex :
    (runTrace 2 2 beh0 (initConfig 2)
      [Ev.poll, Ev.wake 0, Ev.poll, Ev.poll]).isSome = true ∧
    traceViolates 2 2 beh0 (initConfig 2)
      [Ev.poll, Ev.wake 0, Ev.poll, Ev.poll] = true := by
  constructor <;> decide

def InvC (c : Config) : Prop :=
  InvQ c ∧ ∀ id, id ∈ c.queue → c.completed id = false

theorem invC_init (n : Nat) : InvC (initConfig n) :=
  ⟨invQ_init n, fun _ _ => rfl⟩

theorem invC_step (n cap : Nat) (beh : Nat → Nat → Bool) (c c' : Config) (e : Ev)
    (hI : InvC c) (hs : step n cap beh c e = some c')
    (hw : ∀ id, e = .wake id → c.completed id = false) : InvC c' := by
  obtain ⟨hQ, hcomp⟩ := hI
  refine ⟨invQ_step n cap beh c c' e hQ hs, ?_⟩
  cases e with
  | poll =>
    obtain ⟨id, rest, hq, -, hc'⟩ := step_poll_eq n cap beh c c' hs
    subst hc'
    intro j hj
    simp only at hj ⊢
    have hjne : j ≠ id := by
      intro hcon
      subst hcon
      have hnd := hQ.1
      rw [hq] at hnd
      exact (List.nodup_cons.mp hnd).1 hj
    rw [if_neg hjne]
    exact hcomp j (by rw [hq]; exact List.mem_cons_of_mem id hj)
  | wake id =>
    rcases step_wake_eq n cap beh c c' id hs with ⟨-, -, hcase⟩
    rcases hcase with ⟨-, hc'⟩ | ⟨-, -, -, hc'⟩ | ⟨-, -, hc'⟩ <;> subst hc'
    · exact hcomp
    · intro j hj
      simp only at hj ⊢
      rcases List.mem_append.mp hj with hjq | hjid
      · exact hcomp j hjq
      · have hjeq : j = id := by simpa using hjid
        subst hjeq
        exact hw j rfl
    · exact hcomp
  | teardown =>
    obtain ⟨-, -, hc'⟩ := step_teardown_eq n cap beh c c' hs
    subst hc'
    exact hcomp

theorem no_repoll_aux (n cap : Nat) (beh : Nat → Nat → Bool) (tr : List Ev)
    (c : Config) (hI : InvC c)
    (hnw : noWakeOfCompleted n cap beh c tr = true) :
    traceViolates n cap beh c tr = false := by
  induction tr generalizing c with
  | nil => rfl
  | cons e es ih =>
    simp only [noWakeOfCompleted, Bool.and_eq_true] at hnw
    obtain ⟨hnw1, hnw2⟩ := hnw
    simp only [traceViolates, Bool.or_eq_false_iff]
    constructor
    · cases e with
      | poll =>
        cases hq : c.queue with
        | nil => rfl
        | cons id rest => exact hI.2 id (by rw [hq]; exact List.mem_cons_self id rest)
      | wake id => rfl
      | teardown => rfl
    · cases hstep : step n cap beh c e with
      | none => rfl
      | some c' =>
        rw [hstep] at hnw2
        apply ih c'
        · apply invC_step n cap beh c c' e hI hstep
          intro id he
          subst he
          simpa using hnw1
        · exact hnw2

/-- C1 (amended): once a task's poll reports completion it is never
polled again provided no waker bound to its id is invoked at or after the
completing poll; if such a late wake does occur, the id is re-enqueued
and the completed task is polled again (see the counterexample). -/
theorem no_repoll_without_late_wake (n cap : Nat) (beh : Nat → Nat → Bool)
    (tr : List Ev)
    (hnw : noWakeOfCompleted n cap beh (initConfig n) tr = true) :
    traceViolates n cap beh (initConfig n) tr = false :=
  no_repoll_aux n cap beh tr (initConfig n) (invC_init n) hnw

/-- C1 witness: a one-task run whose only event is the completing poll
never re-polls the task. -/
theorem no_repoll_without_late_wake_witness :
    noWakeOfCompleted 2 2 beh0 (initConfig 2) [Ev.poll, Ev.poll] = true ∧
    traceViolates 2 2 beh0 (initConfig 2) [Ev.poll, Ev.poll] = false :=
  ⟨by decide, no_repoll_without_late_wake 2 2 beh0 [Ev.poll, Ev.poll] (by decide)⟩

/-- C9: invoking a waker after the executor has deregistered its enqueue
callback (registered = false, as Executor::run does before returning) is
enabled (no panic: ExecutorState::enqueue_task finds None, logs and
discards the wake) and leaves the queue, the registered flag, the pending
count, the completion and poll-count state all unchanged; the only write
is the compare-exchange on the waker's own is_queued bit, which lives in
the reference-counted TaskHandleData kept alive by the waker itself. -/
theorem post_teardown_wake_noop (n cap : Nat) (beh : Nat → Nat → Bool)
    (c : Config) (id : Nat) (hreg : c.registered = false)
    (hid : id < n) (hpc : 0 < c.pollCount id) :
    ∃ c1, step n cap beh c (.wake id) = some c1 ∧
      c1.queue = c.queue ∧ c1.registered = false ∧ c1.pending = c.pending ∧
      c1.completed = c.completed ∧ c1.pollCount = c.pollCount := by
  by_cases hf : c.flags id
  · refine ⟨c, ?_, rfl, hreg, rfl, rfl, rfl⟩
    simp only [step, if_pos (And.intro hid hpc), if_pos hf]
  · refine ⟨{ c with flags := fun j => if j = id then true else c.flags j },
      ?_, rfl, hreg, rfl, rfl, rfl⟩
    have hr : ¬ (c.registered = true) := by
      rw [hreg]; exact Bool.false_ne_true
    simp only [step, if_pos (And.intro hid hpc), if_neg hf, if_neg hr]

-- A state after a finished one-task run: the task was polled once,
-- the queue drained and the callback deregistered.
def deadConfig : Config :=
  { queue := []
    flags := fun _ => false
    completed := fun _ => true
    pollCount := fun _ => 1
    pending := 0
    registered := false }

/-- C9 witness: a wake of task 0 against a finished run's state. -/
theorem post_teardown_wake_noop_witness :
    ∃ c1, step 1 1 beh0 deadConfig (.wake 0) = some c1 ∧
      c1.queue = deadConfig.queue ∧ c1.registered = false ∧
      c1.pending = deadConfig.pending ∧ c1.completed = deadConfig.completed ∧
      c1.pollCount = deadConfig.pollCount :=
  post_teardown_wake_noop 1 1 beh0 deadConfig 0 rfl (by decide) (by decide)

end Executor

/-! ## One-shot hardware timer (src/utils/timer.rs, EspTimer)

EspTimer::after(timeout) returns a poll_fn future over the timer's state:
if self.waker is None, the poll stores the context's waker, calls
esp_timer_start_once(handle, timeout) and returns Pending; otherwise it
clears self.waker and returns Ready.  The hardware callback
(EspTimer::handle_callback) wakes the stored waker if one is present; a
one-shot alarm fires at most once per start_once call.

The combination of the timer with its awaiting task is modelled as a
machine over poll and callback events.  Awaiting imposes the discipline
that a suspended future is re-polled only after its captured waker has
been woken (wakePending); the first poll of each after(d) future needs no
wake.  Ghost counters record armings (start_once calls), callback fires
and resolutions (Ready results).
-/

namespace EspTimer

structure TimerRun where
  -- self.waker is Some (a waker is captured)
  waker : Bool
  -- the current after() future has returned Pending and not yet resolved
  polled : Bool
  -- the awaiting task has been woken since its last poll
  wakePending : Bool
  armCount : Nat
  fireCount : Nat
  readyCount : Nat
  armedFor : Option Nat

def tinit : TimerRun :=
  { waker := false, polled := false, wakePending := false,
    armCount := 0, fireCount := 0, readyCount := 0, armedFor := none }

inductive TEv where
  | poll
  | callback

def tstep (d : Nat) (s : TimerRun) : TEv → Option TimerRun
  | .poll =>
    -- await discipline: a suspended (polled, unresolved) future is only
    -- re-polled after a wake.
    if s.polled && !s.wakePending then none
    else if !s.waker then
      -- Rust: when self.waker is None: store the waker, start_once(d),
      -- return Pending.
      some { s with
             waker := true
             polled := true
             wakePending := false
             armCount := s.armCount + 1
             armedFor := some d }
    else
      -- Rust: otherwise self.waker = None and return Ready(()); the await
      -- resolves, so the next poll event belongs to a fresh after(d) future.
      some { s with
             waker := false
             polled := false
             wakePending := false
             readyCount := s.readyCount + 1 }
  | .callback =>
    -- the one-shot alarm fires at most once per start_once arming, and
    -- handle_callback wakes the stored waker when one is present.
    if s.fireCount < s.armCount then
      some { s with
             fireCount := s.fireCount + 1
             wakePending := s.wakePending || s.waker }
    else none

def runT (d : Nat) : TimerRun → List TEv → Option TimerRun
  | s, [] => some s
  | s, e :: es => (tstep d s e).bind fun s' => runT d s' es

def TInv (s : TimerRun) : Prop :=
  s.readyCount ≤ s.fireCount ∧ s.fireCount ≤ s.armCount ∧
  (s.wakePending = true → s.readyCount < s.fireCount) ∧
  (s.waker = true → s.polled = true)

theorem tinv_init : TInv tinit :=
  ⟨Nat.le_refl 0, Nat.le_refl 0, fun h => absurd h (by decide),
   fun h => absurd h (by decide)⟩

theorem tinv_step (d : Nat) (s s' : TimerRun) (e : TEv)
    (hI : TInv s) (hs : tstep d s e = some s') : TInv s' := by
  obtain ⟨h1, h2, h3, h4⟩ := hI
  cases e with
  | poll =>
    simp only [tstep] at hs
    by_cases hg : (s.polled && !s.wakePending) = true
    · rw [if_pos hg] at hs
      exact absurd hs (by simp)
    · rw [if_neg hg] at hs
      by_cases hw : s.waker = true
      · rw [if_neg (by simp [hw])] at hs
        have heq := Option.some.inj hs
        subst heq
        have hpolled : s.polled = true := h4 hw
        have hwp : s.wakePending = true := by
          by_cases hwpc : s.wakePending = true
          · exact hwpc
          · rw [Bool.not_eq_true] at hwpc
            rw [hpolled, hwpc] at hg
            simp at hg
        refine ⟨h3 hwp, h2, ?_, ?_⟩
        · intro hcon
          simp at hcon
        · intro hcon
          simp at hcon
      · rw [if_pos (by simp [Bool.not_eq_true] at hw; simp [hw])] at hs
        have heq := Option.some.inj hs
        subst heq
        refine ⟨h1, by simp; omega, ?_, fun _ => rfl⟩
        intro hcon
        simp at hcon
  | callback =>
    simp only [tstep] at hs
    by_cases hfa : s.fireCount < s.armCount
    · rw [if_pos hfa] at hs
      have heq := Option.some.inj hs
      subst heq
      refine ⟨by simp; omega, by simp; omega, ?_, h4⟩
      intro hwp
      simp only at hwp ⊢
      rcases Bool.or_eq_true_iff.mp hwp with hp | hww
      · have := h3 hp
        omega
      · omega
    · rw [if_neg hfa] at hs
      exact absurd hs (by simp)

theorem tinv_runT (d : Nat) (tr : List TEv) (s s' : TimerRun)
    (hI : TInv s) (h : runT d s tr = some s') : TInv s' := by
  induction tr generalizing s with
  | nil =>
    simp only [runT] at h
    exact (Option.some.inj h) ▸ hI
  | cons e es ih =>
    simp only [runT] at h
    cases hstep : tstep d s e with
    | none => rw [hstep] at h; simp at h
    | some s1 =>
      rw [hstep] at h
      simp only [Option.some_bind] at h
      exact ih s1 (tinv_step d s s1 e hI hstep) h

/-- C2: along every awaited run of the timer machine, the number of
resolutions never exceeds the number of callback fires, which never
exceeds the number of armings (a future never resolves before its
callback has fired, and each start_once fires at most once); the first
poll arms the alarm for d, captures the waker and suspends (Pending, no
resolution); and after a resolution the waker state is cleared, so the
two-cycle trace poll, callback, poll, poll, callback, poll arms,
suspends and resolves exactly twice, ending with no captured waker. -/
theorem single_shot_correct (d : Nat) (tr : List TEv) (s : TimerRun)
    (h : runT d tinit tr = some s) :
    (s.readyCount ≤ s.fireCount ∧ s.fireCount ≤ s.armCount) ∧
    tstep d tinit .poll =
      some { waker := true
             polled := true
             wakePending := false
             armCount := 1
             fireCount := 0
             readyCount := 0
             armedFor := some d } ∧
    runT d tinit [.poll, .callback, .poll, .poll, .callback, .poll] =
      some { waker := false
             polled := false
             wakePending := false
             armCount := 2
             fireCount := 2
             readyCount := 2
             armedFor := some d } := by
  have hI := tinv_runT d tr tinit s tinv_init h
  exact ⟨⟨hI.1, hI.2.1⟩, rfl, rfl⟩

/-- C2 witness: the single-poll trace of after(16000 microseconds). -/
theorem single_shot_correct_witness :
    ((0 : Nat) ≤ 0 ∧ (0 : Nat) ≤ 1) ∧
    tstep 16000 tinit .poll =
      some { waker := true
             polled := true
             wakePending := false
             armCount := 1
             fireCount := 0
             readyCount := 0
             armedFor := some 16000 } ∧
    runT 16000 tinit [.poll, .callback, .poll, .poll, .callback, .poll] =
      some { waker := false
             polled := false
             wakePending := false
             armCount := 2
             fireCount := 2
             readyCount := 2
             armedFor := some 16000 } :=
  single_shot_correct 16000 [TEv.poll]
    { waker := true
      polled := true
      wakePending := false
      armCount := 1
      fireCount := 0
      readyCount := 0
      armedFor := some 16000 } rfl

end EspTimer
